import Mathlib

/-!
Verification development for the cc-redis repository: a shallow embedding of
the RESP-like wire codec (src/serializer.rs, src/deserializer.rs), the dynamic
value model (src/value.rs), and the expiring key-value command engine
(src/commands.rs), together with theorems settling the specification claims.

Byte buffers are modelled as `List Nat` (each element a byte value < 256),
Rust `i64` as `Int` with explicit range conditions, `u128` timestamps as `Nat`,
and wall-clock reads (`SystemTime::now`) as an explicit `now : Nat` parameter.
Fallible Rust code returns `Except`; a `todo!()` panic is modelled by a
distinguished error constructor, kept separate from ordinary error values.
-/

/-- Carriage return byte. -/
def CR : Nat := 13

/-- Line feed byte. -/
def LF : Nat := 10

/-- Bytes of an ASCII string literal; used only for ASCII source literals. -/
def asciiBytes (s : String) : List Nat := s.data.map Char.toNat

/-- Models Rust `str::contains("\r\n")` on the UTF-8 bytes of the string:
true iff the byte list contains the two-byte window CR LF. -/
def containsCrlf : List Nat → Bool
  | [] => false
  | [_] => false
  | a :: b :: rest => (a = CR && b = LF) || containsCrlf (b :: rest)

/-- Models `Deserializer::until_crlf` (src/deserializer.rs lines 74-84): find
the first CR LF window; return the bytes before it and the bytes after it, or
`none` (UnexpectedEof in the caller) when no CR LF window exists. -/
def untilCrlf : List Nat → Option (List Nat × List Nat)
  | [] => none
  | [_] => none
  | a :: b :: rest =>
    if a = CR && b = LF then some ([], rest)
    else (untilCrlf (b :: rest)).map (fun p => (a :: p.1, p.2))

/-- Models `Deserializer::take` (src/deserializer.rs lines 90-98): split off
the first `n` bytes, or `none` (UnexpectedEof) when fewer are available. -/
def takeN (n : Nat) (l : List Nat) : Option (List Nat × List Nat) :=
  if l.length < n then none else some (l.take n, l.drop n)

/-- ASCII decimal digit byte test. -/
def isDigitByte (b : Nat) : Bool := 48 ≤ b && b ≤ 57

/-- Value of a big-endian list of ASCII decimal digit bytes. -/
def digitsVal (ds : List Nat) : Nat := ds.foldl (fun a b => 10 * a + (b - 48)) 0

/-- Rust `i64::MIN` as an integer. -/
def i64Min : Int := -(2 ^ 63)

/-- Rust `i64::MAX` as an integer. -/
def i64Max : Int := 2 ^ 63 - 1

/-- Digit-accumulation core shared by the models of `atoi::atoi::<i64>` and
`str::parse::<i64>`: requires at least one byte, all bytes ASCII digits, and
the signed value within the `i64` range (both parsers are overflow-checked;
since the accumulated magnitude grows monotonically, per-digit checked
arithmetic fails exactly when the final value is out of range). -/
def parseI64Core (sign : Int) (ds : List Nat) : Option Int :=
  if ds.isEmpty then none
  else if ds.all isDigitByte then
    let v : Int := sign * (digitsVal ds : Nat)
    if i64Min ≤ v ∧ v ≤ i64Max then some v else none
  else none

/-- Models `atoi::atoi::<i64>` (used by `Deserializer::parse_int`) and
`str::parse::<i64>` (used by `SetArgs::from_args`): an optional single leading
`+` or `-`, then one or more ASCII decimal digits spanning the whole input,
overflow-checked against the `i64` range. -/
def parseI64 (bs : List Nat) : Option Int :=
  match bs with
  | [] => none
  | b :: rest =>
    if b = 43 then parseI64Core 1 rest
    else if b = 45 then parseI64Core (-1) rest
    else parseI64Core 1 (b :: rest)

/-- Little-endian base-10 digits with explicit fuel (so the definition is
structurally recursive and evaluates inside the kernel); with fuel at least
`n` this agrees with `Nat.digits 10 n`. -/
def natDigitsRevFuel : Nat → Nat → List Nat
  | 0, _ => []
  | fuel + 1, n => if n = 0 then [] else n % 10 :: natDigitsRevFuel fuel (n / 10)

/-- Big-endian ASCII decimal digits of a natural number, as produced by Rust
integer `Display` formatting (no leading zeros, `0` printed as one digit). -/
def natDecimalDigits (n : Nat) : List Nat :=
  if n = 0 then [48] else (natDigitsRevFuel n n).reverse.map (fun d => d + 48)

/-- Bytes written by Rust `write!("{v}")` for a signed 64-bit integer value:
a `-` sign for negative values followed by the decimal digits. -/
def intToBytes : Int → List Nat
  | Int.ofNat n => natDecimalDigits n
  | Int.negSucc m => 45 :: natDecimalDigits (m + 1)

/-- UTF-8 continuation byte test (0x80-0xBF). -/
def isUtf8Cont (b : Nat) : Bool := 128 ≤ b && b ≤ 191

/-- Models Rust `str::from_utf8` validity (RFC 3629): used where serde turns
borrowed bytes into a `String` during untagged enum resolution. -/
def utf8Valid : List Nat → Bool
  | [] => true
  | b :: rest =>
    if b ≤ 127 then utf8Valid rest
    else if 194 ≤ b && b ≤ 223 then
      match rest with
      | c1 :: rest' => isUtf8Cont c1 && utf8Valid rest'
      | [] => false
    else if b = 224 then
      match rest with
      | c1 :: c2 :: rest' => (160 ≤ c1 && c1 ≤ 191) && isUtf8Cont c2 && utf8Valid rest'
      | _ => false
    else if 225 ≤ b && b ≤ 236 then
      match rest with
      | c1 :: c2 :: rest' => isUtf8Cont c1 && isUtf8Cont c2 && utf8Valid rest'
      | _ => false
    else if b = 237 then
      match rest with
      | c1 :: c2 :: rest' => (128 ≤ c1 && c1 ≤ 159) && isUtf8Cont c2 && utf8Valid rest'
      | _ => false
    else if 238 ≤ b && b ≤ 239 then
      match rest with
      | c1 :: c2 :: rest' => isUtf8Cont c1 && isUtf8Cont c2 && utf8Valid rest'
      | _ => false
    else if b = 240 then
      match rest with
      | c1 :: c2 :: c3 :: rest' =>
        (144 ≤ c1 && c1 ≤ 191) && isUtf8Cont c2 && isUtf8Cont c3 && utf8Valid rest'
      | _ => false
    else if 241 ≤ b && b ≤ 243 then
      match rest with
      | c1 :: c2 :: c3 :: rest' =>
        isUtf8Cont c1 && isUtf8Cont c2 && isUtf8Cont c3 && utf8Valid rest'
      | _ => false
    else if b = 244 then
      match rest with
      | c1 :: c2 :: c3 :: rest' =>
        (128 ≤ c1 && c1 ≤ 143) && isUtf8Cont c2 && isUtf8Cont c3 && utf8Valid rest'
      | _ => false
    else false

/-- Lowercase an ASCII byte, as Rust `u8::to_ascii_lowercase`. -/
def asciiLowerByte (b : Nat) : Nat := if 65 ≤ b && b ≤ 90 then b + 32 else b

/-- Bytewise ASCII lowercasing of a byte string. Models Rust
`str::to_ascii_lowercase`, and also `str::to_lowercase` for the ASCII
fragment relevant to command verbs (Unicode lowercasing agrees with ASCII
lowercasing on ASCII bytes, and no non-ASCII character lowercases to any of
the supported verb names). -/
def asciiLower (bs : List Nat) : List Nat := bs.map asciiLowerByte

/-- Models Rust `str::eq_ignore_ascii_case` (used via the `CaseInsensitive`
wrapper of src/case_insensitive.rs): equality after bytewise ASCII
lowercasing, which coincides with Rust's length-check-plus-bytewise
comparison. -/
def eqIgnoreAsciiCase (a b : List Nat) : Bool := asciiLower a = asciiLower b

/-- The dynamic tagged-union value model of src/value.rs. Rust `String`
payloads are modelled as their UTF-8 byte lists; `BTreeMap<Value, Value>` as
an association list in key order (the ordering itself is not needed by any
claim below). -/
inductive Value where
  | Int (i : Int)
  | Bool (b : Bool)
  | String (s : Option (List Nat))
  | Array (a : Option (List Value))
  | Map (m : List (Value × Value))
  | Null

mutual

/-- Structural equality on `Value`, mirroring the derived `PartialEq`. -/
def Value.beq : Value → Value → Bool
  | .Int a, .Int b => a == b
  | .Bool a, .Bool b => a == b
  | .String a, .String b => a == b
  | .Array none, .Array none => true
  | .Array (some a), .Array (some b) => valueListBeq a b
  | .Map a, .Map b => valuePairsBeq a b
  | .Null, .Null => true
  | _, _ => false

/-- Structural equality on value sequences. -/
def valueListBeq : List Value → List Value → Bool
  | [], [] => true
  | a :: as, b :: bs => Value.beq a b && valueListBeq as bs
  | _, _ => false

/-- Structural equality on key-value pair sequences. -/
def valuePairsBeq : List (Value × Value) → List (Value × Value) → Bool
  | [], [] => true
  | (ka, va) :: as, (kb, vb) :: bs =>
    Value.beq ka kb && Value.beq va vb && valuePairsBeq as bs
  | _, _ => false

end

mutual

theorem Value.beq_iff : ∀ a b : Value, Value.beq a b = true ↔ a = b
  | .Int a, .Int b => by simp [Value.beq]
  | .Int _, .Bool _ => by simp [Value.beq]
  | .Int _, .String _ => by simp [Value.beq]
  | .Int _, .Array a => by cases a <;> simp [Value.beq]
  | .Int _, .Map _ => by simp [Value.beq]
  | .Int _, .Null => by simp [Value.beq]
  | .Bool _, .Int _ => by simp [Value.beq]
  | .Bool a, .Bool b => by simp [Value.beq]
  | .Bool _, .String _ => by simp [Value.beq]
  | .Bool _, .Array a => by cases a <;> simp [Value.beq]
  | .Bool _, .Map _ => by simp [Value.beq]
  | .Bool _, .Null => by simp [Value.beq]
  | .String _, .Int _ => by simp [Value.beq]
  | .String _, .Bool _ => by simp [Value.beq]
  | .String a, .String b => by simp [Value.beq]
  | .String _, .Array a => by cases a <;> simp [Value.beq]
  | .String _, .Map _ => by simp [Value.beq]
  | .String _, .Null => by simp [Value.beq]
  | .Array a, .Int _ => by cases a <;> simp [Value.beq]
  | .Array a, .Bool _ => by cases a <;> simp [Value.beq]
  | .Array a, .String _ => by cases a <;> simp [Value.beq]
  | .Array none, .Array none => by simp [Value.beq]
  | .Array none, .Array (some _) => by simp [Value.beq]
  | .Array (some _), .Array none => by simp [Value.beq]
  | .Array (some a), .Array (some b) => by simp [Value.beq, valueListBeq_iff a b]
  | .Array a, .Map _ => by cases a <;> simp [Value.beq]
  | .Array a, .Null => by cases a <;> simp [Value.beq]
  | .Map _, .Int _ => by simp [Value.beq]
  | .Map _, .Bool _ => by simp [Value.beq]
  | .Map _, .String _ => by simp [Value.beq]
  | .Map _, .Array a => by cases a <;> simp [Value.beq]
  | .Map a, .Map b => by simp [Value.beq, valuePairsBeq_iff a b]
  | .Map _, .Null => by simp [Value.beq]
  | .Null, .Int _ => by simp [Value.beq]
  | .Null, .Bool _ => by simp [Value.beq]
  | .Null, .String _ => by simp [Value.beq]
  | .Null, .Array a => by cases a <;> simp [Value.beq]
  | .Null, .Map _ => by simp [Value.beq]
  | .Null, .Null => by simp [Value.beq]

theorem valueListBeq_iff : ∀ a b : List Value, valueListBeq a b = true ↔ a = b
  | [], [] => by simp [valueListBeq]
  | [], _ :: _ => by simp [valueListBeq]
  | _ :: _, [] => by simp [valueListBeq]
  | a :: as, b :: bs => by
    simp [valueListBeq, Value.beq_iff a b, valueListBeq_iff as bs]

theorem valuePairsBeq_iff : ∀ a b : List (Value × Value), valuePairsBeq a b = true ↔ a = b
  | [], [] => by simp [valuePairsBeq]
  | [], _ :: _ => by simp [valuePairsBeq]
  | _ :: _, [] => by simp [valuePairsBeq]
  | (ka, va) :: as, (kb, vb) :: bs => by
    simp [valuePairsBeq, Value.beq_iff ka kb, Value.beq_iff va vb,
      valuePairsBeq_iff as bs, Prod.ext_iff]

end

instance : DecidableEq Value :=
  fun a b => decidable_of_iff (Value.beq a b = true) (Value.beq_iff a b)

/-- `Value::str` (src/value.rs lines 18-20): wrap text as a present string. -/
def Value.strV (s : List Nat) : Value := Value.String (some s)

/-- `Value::get_str` (src/value.rs lines 71-76): view as present text. -/
def Value.get_str : Value → Option (List Nat)
  | .String i => i
  | _ => none

/-- Serializer failures (src/serializer.rs lines 19-29), with `panicTodo`
modelling a `todo!()` panic reached inside serialization (src/serializer.rs
`serialize_unit` line 130, hit by `Value::Null` through the untagged derive).
A panic is not a `serde` error value; it is kept as a separate constructor so
the command layer can propagate it instead of mapping it to an error reply. -/
inductive SerErr where
  | custom (msg : String)
  | intOverflow
  | lengthRequired
  | panicTodo
  deriving DecidableEq

/-- `Serializer::serialize_bytes` (src/serializer.rs lines 111-116): bulk
frame with decimal length, payload, trailing CRLF. -/
def serializeBulk (v : List Nat) : List Nat :=
  36 :: natDecimalDigits v.length ++ [CR, LF] ++ v ++ [CR, LF]

/-- `Serializer::serialize_str` (src/serializer.rs lines 104-109): text that
contains a CRLF is re-routed to the bulk encoding, otherwise a `+` simple
line. -/
def serializeStr (v : List Nat) : List Nat :=
  if containsCrlf v then serializeBulk v
  else 43 :: v ++ [CR, LF]

/-- `Serializer::serialize_i64` (src/serializer.rs lines 68-70). -/
def serializeI64 (v : Int) : List Nat := 58 :: intToBytes v ++ [CR, LF]

/-- `Serializer::serialize_bool` (src/serializer.rs lines 51-54). -/
def serializeBool (v : Bool) : List Nat := [35, if v then 116 else 102, CR, LF]

/-- `Serializer::serialize_none` (src/serializer.rs lines 118-120): the
absent-optional frame, literally the bytes of `$-1\x0d\x0a`. -/
def serializeNone : List Nat := [36, 45, 49, CR, LF]

mutual

/-- Serialization of a dynamic `Value` through the untagged `Serialize`
derive of src/value.rs against the `Serializer` of src/serializer.rs:
`Int` uses `serialize_i64`, `Bool` uses `serialize_bool`, `String`/`Array`
serialize their `Option` via `serialize_none`/`serialize_some`, sequences
emit a `*` count header then each element, maps a `%` pair-count header then
each key and value, and `Null` (a unit variant) reaches `serialize_unit`,
which is `todo!()` and panics. -/
def serializeValue : Value → Except SerErr (List Nat)
  | .Int n => .ok (serializeI64 n)
  | .Bool b => .ok (serializeBool b)
  | .String none => .ok serializeNone
  | .String (some s) => .ok (serializeStr s)
  | .Array none => .ok serializeNone
  | .Array (some xs) => do
    let elems ← serializeValueList xs
    .ok (42 :: natDecimalDigits xs.length ++ [CR, LF] ++ elems)
  | .Map m => do
    let pairs ← serializeValuePairs m
    .ok (37 :: natDecimalDigits m.length ++ [CR, LF] ++ pairs)
  | .Null => .error .panicTodo

/-- Element-by-element serialization of a sequence body. -/
def serializeValueList : List Value → Except SerErr (List Nat)
  | [] => .ok []
  | v :: vs => do
    let hd ← serializeValue v
    let tl ← serializeValueList vs
    .ok (hd ++ tl)

/-- Pair-by-pair serialization of a map body (key then value). -/
def serializeValuePairs : List (Value × Value) → Except SerErr (List Nat)
  | [] => .ok []
  | (k, v) :: ps => do
    let hk ← serializeValue k
    let hv ← serializeValue v
    let tl ← serializeValuePairs ps
    .ok (hk ++ hv ++ tl)

end

example : serializeValue (.Array (some [.Int 12, .Bool true])) =
    .ok (asciiBytes "*2" ++ [CR, LF] ++ asciiBytes ":12" ++ [CR, LF] ++
      asciiBytes "#t" ++ [CR, LF]) := by rfl

/-- Deserializer failures (src/deserializer.rs lines 6-24). Offsets are byte
positions computed, exactly as in `Deserializer::position`, as the original
buffer length minus the remaining length. `panicTodo` models a `todo!()`
panic reached inside deserialization (e.g. `deserialize_option`,
src/deserializer.rs lines 189-194). -/
inductive DeErr where
  | custom (msg : String)
  | trailingCharacters (pos : Nat)
  | unexpectedEof
  | synError (pos : Nat)
  | negativeLength (pos : Nat)
  | parseIntError (pos : Nat)
  | expectedArray (pos : Nat)
  | missingValue (pos : Nat)
  | panicTodo
  deriving DecidableEq

/-- The content produced by `deserialize_any` (src/deserializer.rs lines
117-157) through a content-buffering visitor (what serde's untagged derive
uses): borrowed bytes for `+` and `$` frames, a signed integer for `:`, a
boolean for `#`. No other sigil is handled by `deserialize_any`. -/
inductive Content where
  | bytes (bs : List Nat)
  | int (n : Int)
  | bool (b : Bool)
  deriving DecidableEq

/-- `deserialize_any` (src/deserializer.rs lines 117-157). `orig` is the
original buffer length, used only to compute error offsets; returns the
decoded content and the unconsumed remainder. -/
def deserializeAny (orig : Nat) : List Nat → Except DeErr (Content × List Nat)
  | [] => .error .unexpectedEof
  | c :: rest =>
    if c = 43 then
      match untilCrlf rest with
      | none => .error .unexpectedEof
      | some (buf, rest') => .ok (.bytes buf, rest')
    else if c = 36 then
      let pos := orig - rest.length
      match untilCrlf rest with
      | none => .error .unexpectedEof
      | some (lenBuf, rest') =>
        match parseI64 lenBuf with
        | none => .error (.parseIntError pos)
        | some len =>
          if len < 0 then .error (.negativeLength pos)
          else
            match takeN len.toNat rest' with
            | none => .error .unexpectedEof
            | some (buf, rest2) =>
              match rest2 with
              | 13 :: 10 :: rest3 => .ok (.bytes buf, rest3)
              | _ => .error (.synError (orig - rest2.length))
    else if c = 58 then
      let pos := orig - rest.length
      match untilCrlf rest with
      | none => .error .unexpectedEof
      | some (intBuf, rest') =>
        match parseI64 intBuf with
        | none => .error (.parseIntError pos)
        | some n => .ok (.int n, rest')
    else if c = 35 then
      let pos := orig - rest.length
      match untilCrlf rest with
      | none => .error .unexpectedEof
      | some (buf, rest') =>
        match buf with
        | [116] => .ok (.bool true, rest')
        | [102] => .ok (.bool false, rest')
        | _ => .error (.synError pos)
    else .error (.synError (orig - rest.length))

/-- Decoding one `i64` (the `forward_to_deserialize_any` path for integer
shapes, src/deserializer.rs line 159): `deserialize_any` runs and the
primitive integer visitor accepts only `visit_i64`; bytes or booleans raise
serde's invalid-type error (an `Error::Custom`). -/
def deserializeAnyI64 (orig : Nat) (input : List Nat) : Except DeErr (Int × List Nat) :=
  match deserializeAny orig input with
  | .error e => .error e
  | .ok (.int n, rest) => .ok (n, rest)
  | .ok (_, _) => .error (.custom "invalid type")

/-- `deserialize_option` (src/deserializer.rs lines 189-194) is `todo!()`:
any attempt to decode an optional shape panics. -/
def deserializeOption (_orig : Nat) (_input : List Nat) :
    Except DeErr (Option Content × List Nat) :=
  .error .panicTodo

/-- Untagged enum resolution for `Value` (the `#[serde(untagged)]` derive of
src/value.rs): serde buffers the input through `deserialize_any` into a
content value, then tries the variants in declaration order (`Int`, `Bool`,
`String`, `Array`, `Map`, `Null`). Integer content resolves to `Int`,
boolean content to `Bool`; byte content fails the `Int` and `Bool` trials and
resolves to `String(Some _)` when the bytes are valid UTF-8, and fails every
remaining trial otherwise (sequences, maps and unit reject byte content), in
which case serde reports its untagged-mismatch custom error. -/
def contentToValue : Content → Except DeErr Value
  | .int n => .ok (.Int n)
  | .bool b => .ok (.Bool b)
  | .bytes bs =>
    if utf8Valid bs then .ok (.String (some bs))
    else .error (.custom "data did not match any variant of untagged enum Value")

/-- `from_bytes::<Value>` (src/deserializer.rs lines 101-112): decode one
dynamic `Value`, then fail with `TrailingCharacters` at the current position
when any input remains. -/
def fromBytesValue (s : List Nat) : Except DeErr Value :=
  match deserializeAny s.length s with
  | .error e => .error e
  | .ok (c, rest) =>
    match contentToValue c with
    | .error e => .error e
    | .ok v =>
      if rest.isEmpty then .ok v
      else .error (.trailingCharacters (s.length - rest.length))

/-- `from_bytes::<i64>` (src/deserializer.rs lines 101-112 at an integer
shape). -/
def fromBytesI64 (s : List Nat) : Except DeErr Int :=
  match deserializeAnyI64 s.length s with
  | .error e => .error e
  | .ok (v, rest) =>
    if rest.isEmpty then .ok v
    else .error (.trailingCharacters (s.length - rest.length))

/-- `MapAccess::next_value_seed` for `Array` (src/deserializer.rs lines
344-354) at an integer value shape: with no pairs remaining the distinct
`MissingValue` error carrying the current offset is returned; otherwise the
remaining-pair count is decremented and the value decoded. -/
def nextValueSeedI64 (orig len : Nat) (input : List Nat) :
    Except DeErr (Int × Nat × List Nat) :=
  if len = 0 then .error (.missingValue (orig - input.length))
  else
    match deserializeAnyI64 orig input with
    | .error e => .error e
    | .ok (v, rest) => .ok (v, len - 1, rest)

/-- `MapAccess::next_key_seed` for `Array` (src/deserializer.rs lines
333-342) at an integer key shape: `None` once the remaining-pair count is
zero; otherwise the key is decoded without decrementing the count. -/
def nextKeySeedI64 (orig len : Nat) (input : List Nat) :
    Except DeErr (Option (Int × List Nat)) :=
  if len = 0 then .ok none
  else
    match deserializeAnyI64 orig input with
    | .error e => .error e
    | .ok (k, rest) => .ok (some (k, rest))

/-- The serde map-visitor driver loop for a keyed-map consumer (alternating
`next_key_seed` / `next_value_seed` until the key access reports `None`),
specialised to integer keys and values. With a positive remaining count the
key access decodes a key, the value access decrements and decodes a value
(its returned count, `len`, is used for the recursive call). -/
def mapVisitLoop (orig : Nat) : Nat → List Nat → Except DeErr (List (Int × Int) × List Nat)
  | 0, input => .ok ([], input)
  | len + 1, input =>
    match nextKeySeedI64 orig (len + 1) input with
    | .error e => .error e
    | .ok none => .ok ([], input)
    | .ok (some (k, rest)) =>
      match nextValueSeedI64 orig (len + 1) rest with
      | .error e => .error e
      | .ok (v, _, rest') =>
        match mapVisitLoop orig len rest' with
        | .error e => .error e
        | .ok (ps, rest2) => .ok ((k, v) :: ps, rest2)

/-- `deserialize_map` (src/deserializer.rs lines 261-275) at integer
key/value shapes: expect the `%` sigil (else `ExpectedArray`), read the
decimal pair count until CRLF, reject a negative count, then run the map
visitor. -/
def deserializeMapI64 (orig : Nat) (input : List Nat) :
    Except DeErr (List (Int × Int) × List Nat) :=
  match input with
  | [] => .error .unexpectedEof
  | c :: rest =>
    if c = 37 then
      let pos := orig - rest.length
      match untilCrlf rest with
      | none => .error .unexpectedEof
      | some (lenBuf, rest') =>
        match parseI64 lenBuf with
        | none => .error (.parseIntError pos)
        | some len =>
          if len < 0 then .error (.negativeLength pos)
          else mapVisitLoop orig len.toNat rest'
    else .error (.expectedArray (orig - rest.length))

/-- `from_bytes` at a keyed-map shape with integer keys and values. -/
def fromBytesMapI64 (s : List Nat) : Except DeErr (List (Int × Int)) :=
  match deserializeMapI64 s.length s with
  | .error e => .error e
  | .ok (m, rest) =>
    if rest.isEmpty then .ok m
    else .error (.trailingCharacters (s.length - rest.length))

example : fromBytesI64 (asciiBytes ":15" ++ [CR, LF]) = .ok 15 := by rfl
example : fromBytesValue (asciiBytes "+abc" ++ [CR, LF]) =
    .ok (.String (some (asciiBytes "abc"))) := by rfl
example : fromBytesMapI64 (asciiBytes "%1" ++ [CR, LF] ++ asciiBytes ":1" ++
    [CR, LF] ++ asciiBytes ":2" ++ [CR, LF]) = .ok [(1, 2)] := by rfl

/-- `Entry` (src/commands.rs lines 12-16): a stored value plus an optional
absolute expiry timestamp in milliseconds since the epoch. -/
structure Entry where
  value : Value
  expiry : Option Nat
  deriving DecidableEq

/-- `Entry::is_expired` (src/commands.rs lines 19-29): entries without an
expiry never expire; otherwise expired exactly when the current wall-clock
time is strictly greater than the expiry. -/
def Entry.is_expired (e : Entry) (now : Nat) : Bool :=
  match e.expiry with
  | none => false
  | some expiry => decide (now > expiry)

/-- `Entry::new` (src/commands.rs lines 31-36). -/
def Entry.newE (value : Value) : Entry := { value := value, expiry := none }

/-- `Entry::expires_in` (src/commands.rs lines 38-45): absolute expiry is the
current time plus the requested duration. -/
def Entry.expires_in (e : Entry) (now ms : Nat) : Entry :=
  { e with expiry := some (now + ms) }

/-- The store: `BTreeMap<Value, Entry>`, modelled as an association list with
unique keys (insertion replaces; the B-tree ordering is irrelevant to the
claims). -/
abbrev Store := List (Value × Entry)

/-- `BTreeMap::get` on the store. -/
def lookupStore (k : Value) : Store → Option Entry
  | [] => none
  | (k', e) :: rest => if k' = k then some e else lookupStore k rest

/-- `BTreeMap::insert` on the store: replaces the entry of an existing key
(keeping the original key object, as `BTreeMap` does), appends otherwise. -/
def insertStore (k : Value) (e : Entry) : Store → Store
  | [] => [(k, e)]
  | (k', e') :: rest =>
    if k' = k then (k', e) :: rest else (k', e') :: insertStore k e rest

/-- `BTreeMap::remove` on the store: removes the (unique) entry of the key. -/
def removeStore (k : Value) : Store → Store
  | [] => []
  | (k', e') :: rest => if k' = k then rest else (k', e') :: removeStore k rest

/-- The key-collection pass of `App::prune_expired` (src/commands.rs lines
62-72): all keys whose entries are currently expired. -/
def expiredKeys (store : Store) (now : Nat) : List Value :=
  (store.filter (fun kv => kv.2.is_expired now)).map Prod.fst

/-- `App::prune_expired` (src/commands.rs lines 62-72): collect the keys of
all currently-expired entries, then remove each collected key. -/
def prune_expired (store : Store) (now : Nat) : Store :=
  (expiredKeys store now).foldl (fun s k => removeStore k s) store

/-- Command-layer errors (src/commands.rs lines 81-95). `unknownCommand`
carries the verb text from the wire (bytes); the other messages are source
literals. -/
inductive CmdError where
  | failure
  | generic (msg : String)
  | genericStatic (msg : String)
  | invalidReq (msg : String)
  | unknownCommand (cmd : List Nat)
  | typeError (msg : String)
  deriving DecidableEq

/-- The error-line category written by each variant's `#[error(...)]` display
string (src/commands.rs lines 81-95): `Generic` and `GenericStatic` both
render as `-ERR`, `InvalidReq` as `-INVALIDREQ`, `UnknownCommand` as
`-UNKNOWN`, `TypeError` as `-WRONGTYPE`. -/
def CmdError.category : CmdError → String
  | .failure => "FAILURE"
  | .generic _ => "ERR"
  | .genericStatic _ => "ERR"
  | .invalidReq _ => "INVALIDREQ"
  | .unknownCommand _ => "UNKNOWN"
  | .typeError _ => "WRONGTYPE"

/-- The full rendered error line (without the trailing CRLF appended by
`dispatch_command`), per the `#[error(...)]` display strings. -/
def CmdError.displayBytes : CmdError → List Nat
  | .failure => asciiBytes "-FAILURE"
  | .generic m => asciiBytes "-ERR " ++ asciiBytes m
  | .genericStatic m => asciiBytes "-ERR " ++ asciiBytes m
  | .invalidReq m => asciiBytes "-INVALIDREQ " ++ asciiBytes m
  | .unknownCommand c => asciiBytes "-UNKNOWN " ++ c
  | .typeError m => asciiBytes "-WRONGTYPE " ++ asciiBytes m

/-- Parsed `set` arguments (src/commands.rs lines 103-107). -/
structure SetArgs where
  key : Value
  val : Value
  expiry : Option Int
  deriving DecidableEq

/-- The modifier-token test of `SetArgs::from_args` (src/commands.rs line
129): the argument views as text and equals `px` case-insensitively. -/
def isPxToken (arg : Value) : Bool :=
  match arg.get_str with
  | some s => eqIgnoreAsciiCase s (asciiBytes "px")
  | none => false

/-- The trailing-argument loop of `SetArgs::from_args` (src/commands.rs lines
128-141): any argument equal to `px` case-insensitively must be followed by
an argument; that argument must view as text parsing as an `i64`, else a
type error; the parsed expiry (the last one to occur) is recorded; all other
tokens are silently ignored. -/
def pxLoop (acc : Option Int) : List Value → Except CmdError (Option Int)
  | [] => .ok acc
  | arg :: rest =>
    if isPxToken arg then
      match rest with
      | [] => .error (.genericStatic "PX expects expiry.")
      | e :: rest' =>
        match e.get_str with
        | none => .error (.typeError "expiry must be an int")
        | some s =>
          match parseI64 s with
          | none => .error (.typeError "expiry must be an int")
          | some n => pxLoop (some n) rest'
    else pxLoop acc rest

/-- `SetArgs::from_args` (src/commands.rs lines 110-144): first argument is
the key, second the value, each missing one reported through
`Error::GenericStatic`; remaining arguments go through the `PX` loop. -/
def SetArgs.from_args : List Value → Except CmdError SetArgs
  | [] => .error (.genericStatic "set is missing key")
  | [_] => .error (.genericStatic "set is missing value argument")
  | k :: v :: rest =>
    match pxLoop none rest with
    | .error e => .error e
    | .ok expiry => .ok { key := k, val := v, expiry := expiry }

/-- Process-wide settings: `BTreeMap<String, String>` as an association
list over UTF-8 byte keys and values. -/
abbrev Config := List (List Nat × List Nat)

/-- `BTreeMap::get` on the settings. -/
def lookupConfig (k : List Nat) : Config → Option (List Nat)
  | [] => none
  | (k', v) :: rest => if k' = k then some v else lookupConfig k rest

/-- `BTreeMap::insert` on the settings (`App::set_config`, src/commands.rs
lines 199-201). -/
def insertConfig (k v : List Nat) : Config → Config
  | [] => [(k, v)]
  | (k', v') :: rest =>
    if k' = k then (k', v) :: rest else (k', v') :: insertConfig k v rest

/-- Parsed `config` arguments (src/commands.rs lines 147-150). -/
inductive ConfigArgs where
  | get (key : List Nat)
  | set (key val : List Nat)
  deriving DecidableEq

/-- `ConfigArgs::from_args` (src/commands.rs lines 152-196): a sub-verb
(`get`/`set`, ASCII-lowercased) followed by exactly one, respectively two,
text parameters; every failure is an `Error::GenericStatic`. -/
def ConfigArgs.from_args : List Value → Except CmdError ConfigArgs
  | [] => .error (.genericStatic "config requires verb (get/set)")
  | verb :: args =>
    match verb.get_str with
    | none => .error (.genericStatic "verb must be string")
    | some vs =>
      let v := asciiLower vs
      if v = asciiBytes "get" then
        match args with
        | [a] =>
          match a.get_str with
          | some k => .ok (.get k)
          | none => .error (.genericStatic "config get key must be string")
        | _ => .error (.genericStatic "config get requires exactly one parameter")
      else if v = asciiBytes "set" then
        match args with
        | [a, b] =>
          match a.get_str with
          | none => .error (.genericStatic "config set key must be string")
          | some k =>
            match b.get_str with
            | none => .error (.genericStatic "config set value must be string")
            | some val => .ok (.set k val)
        | _ => .error (.genericStatic "config set requires exactly two parameters")
      else .error (.genericStatic "config requires verb (get/set)")

/-- The application state (src/commands.rs lines 48-52): the expiring store
and the settings map (each behind its own lock in the source; lock
acquisition is not modelled since every handler holds the lock for its whole
critical section). -/
structure App where
  store : Store
  config : Config
  deriving DecidableEq

/-- `App::ping` (src/commands.rs lines 203-205). The `&str` payload
serializes exactly as a present text value does, so responses are modelled
uniformly as `Value`. -/
def appPing : Except CmdError Value := .ok (.String (some (asciiBytes "PONG")))

/-- `App::echo` (src/commands.rs lines 207-212). -/
def appEcho (argv : List Value) : Except CmdError Value :=
  match argv with
  | [v] => .ok v
  | _ => .error (.invalidReq "echo expects exactly one argument")

/-- `App::set` (src/commands.rs lines 214-227): parse arguments, build a
fresh entry, and only when the parsed expiry converts to an unsigned value
(`i64::try_into::<u128>`, which fails for negative values) set the absolute
expiry to now + ms; store the entry under the key and reply `OK`. -/
def appSet (store : Store) (argv : List Value) (now : Nat) :
    Except CmdError Value × Store :=
  match SetArgs.from_args argv with
  | .error e => (.error e, store)
  | .ok args =>
    let entry := Entry.newE args.val
    let entry :=
      match args.expiry with
      | some x => if 0 ≤ x then entry.expires_in now x.toNat else entry
      | none => entry
    (.ok (.String (some (asciiBytes "OK"))), insertStore args.key entry store)

/-- `App::get` (src/commands.rs lines 229-241): exactly one key argument;
the looked-up entry (or the default never-expiring `Null` entry when absent)
yields `Null` when expired and its value otherwise. The store is only read. -/
def appGet (store : Store) (argv : List Value) (now : Nat) : Except CmdError Value :=
  match argv with
  | [k] =>
    let v := (lookupStore k store).getD (Entry.newE .Null)
    if v.is_expired now then .ok .Null else .ok v.value
  | _ => .error (.invalidReq "get expects exactly one argument")

/-- `App::config` (src/commands.rs lines 243-259): `get` replies the
two-element sequence [name, value-or-absent]; `set` stores and replies
`OK`. -/
def appConfig (config : Config) (argv : List Value) :
    Except CmdError Value × Config :=
  match ConfigArgs.from_args argv with
  | .error e => (.error e, config)
  | .ok (.get k) =>
    (.ok (.Array (some [.String (some k), .String (lookupConfig k config)])), config)
  | .ok (.set k v) =>
    (.ok (.String (some (asciiBytes "OK"))), insertConfig k v config)

/-- Outcome of one dispatched request: serialized response bytes, a
command-layer error (rendered into an error line by `dispatch_command`), or
a panic that unwinds out of the handler (serialization reaching `todo!()`). -/
inductive DOut where
  | ok (bytes : List Nat)
  | err (e : CmdError)
  | panicked
  deriving DecidableEq

/-- The `ToBytes` adapter (src/commands.rs lines 291-305): a successful
handler result is serialized, with genuine serializer errors mapped to
`Error::GenericStatic("failed to serialize")`; a `todo!()` panic inside
serialization is not an error value and unwinds instead. -/
def runToBytes (r : Except CmdError Value) : DOut :=
  match r with
  | .error e => .err e
  | .ok v =>
    match serializeValue v with
    | .ok bs => .ok bs
    | .error .panicTodo => .panicked
    | .error _ => .err (.genericStatic "failed to serialize")

/-- `App::dispatch_inner` (src/commands.rs lines 261-281): the request must
be a present sequence whose first element is present text naming the verb;
the verb is lowercased and matched against the five supported commands, any
other verb producing `Error::UnknownCommand` carrying the verb text as
supplied. -/
def dispatch_inner (app : App) (now : Nat) (arg : Value) : DOut × App :=
  match arg with
  | .Array (some (cmd :: args)) =>
    match cmd with
    | .String (some command) =>
      let l := asciiLower command
      if l = asciiBytes "ping" then (runToBytes appPing, app)
      else if l = asciiBytes "echo" then (runToBytes (appEcho args), app)
      else if l = asciiBytes "set" then
        match appSet app.store args now with
        | (r, store') => (runToBytes r, { app with store := store' })
      else if l = asciiBytes "get" then (runToBytes (appGet app.store args now), app)
      else if l = asciiBytes "config" then
        match appConfig app.config args with
        | (r, config') => (runToBytes r, { app with config := config' })
      else (.err (.unknownCommand command), app)
    | _ => (.err (.typeError "command must be a string"), app)
  | .Array (some []) => (.err (.invalidReq "argv must not be empty"), app)
  | _ => (.err (.invalidReq "command must be an array"), app)

/-- `App::dispatch_command` (src/commands.rs lines 283-288): successful
bytes pass through; errors render as their display line plus CRLF; a panic
(modelled as `none`) unwinds past this function. -/
def dispatch_command (app : App) (now : Nat) (arg : Value) :
    Option (List Nat) × App :=
  match dispatch_inner app now arg with
  | (.ok bs, app') => (some bs, app')
  | (.err e, app') => (some (CmdError.displayBytes e ++ [CR, LF]), app')
  | (.panicked, app') => (none, app')

example :
    dispatch_command { store := [], config := [] } 0
      (.Array (some [.String (some (asciiBytes "PING"))])) =
    (some (asciiBytes "+PONG" ++ [CR, LF]), { store := [], config := [] }) := by
  rfl

theorem natDigitsRevFuel_eq_digits (fuel : Nat) :
    ∀ n : Nat, n ≤ fuel → natDigitsRevFuel fuel n = Nat.digits 10 n := by
  induction fuel with
  | zero =>
    intro n hn
    have : n = 0 := by omega
    subst this
    simp [natDigitsRevFuel]
  | succ fuel ih =>
    intro n hn
    by_cases hz : n = 0
    · subst hz; simp [natDigitsRevFuel]
    · have hdiv : n / 10 < n := Nat.div_lt_self (Nat.pos_of_ne_zero hz) (by norm_num)
      rw [natDigitsRevFuel, if_neg hz, ih (n / 10) (by omega),
        Nat.digits_def' (by norm_num : (1 : Nat) < 10) (Nat.pos_of_ne_zero hz)]

theorem foldl_digits_reverse (l : List Nat) :
    ∀ acc : Nat, l.reverse.foldl (fun a d => 10 * a + d) acc =
      acc * 10 ^ l.length + Nat.ofDigits 10 l := by
  induction l with
  | nil => intro acc; simp [Nat.ofDigits]
  | cons d l ih =>
    intro acc
    simp only [List.reverse_cons, List.foldl_append, List.foldl_cons, List.foldl_nil, ih,
      Nat.ofDigits_cons, List.length_cons]
    ring

theorem digitsVal_natDecimalDigits (m : Nat) : digitsVal (natDecimalDigits m) = m := by
  by_cases hz : m = 0
  · subst hz; simp [natDecimalDigits, digitsVal]
  · rw [natDecimalDigits, if_neg hz, natDigitsRevFuel_eq_digits m m le_rfl,
      digitsVal, List.foldl_map]
    simp only [Nat.add_sub_cancel]
    rw [foldl_digits_reverse]
    simp [Nat.ofDigits_digits]

theorem mem_natDecimalDigits {m b : Nat} (hb : b ∈ natDecimalDigits m) :
    48 ≤ b ∧ b ≤ 57 := by
  by_cases hz : m = 0
  · subst hz; simp [natDecimalDigits] at hb; omega
  · rw [natDecimalDigits, if_neg hz, natDigitsRevFuel_eq_digits m m le_rfl] at hb
    simp only [List.mem_map, List.mem_reverse] at hb
    obtain ⟨d, hd, rfl⟩ := hb
    have := Nat.digits_lt_base (by norm_num : (1 : Nat) < 10) hd
    omega

theorem natDecimalDigits_ne_nil (m : Nat) : natDecimalDigits m ≠ [] := by
  by_cases hz : m = 0
  · subst hz; simp [natDecimalDigits]
  · rw [natDecimalDigits, if_neg hz, natDigitsRevFuel_eq_digits m m le_rfl]
    have h1 : Nat.digits 10 m ≠ [] := Nat.digits_ne_nil_iff_ne_zero.mpr hz
    intro h
    rcases List.map_eq_nil_iff.mp h with h2
    exact h1 (List.reverse_eq_nil_iff.mp h2)

theorem parseI64Core_natDecimalDigits (sign : Int) (m : Nat)
    (h1 : i64Min ≤ sign * m) (h2 : sign * m ≤ i64Max) :
    parseI64Core sign (natDecimalDigits m) = some (sign * m) := by
  have hne : ¬ (natDecimalDigits m).isEmpty = true := by
    simp [List.isEmpty_iff, natDecimalDigits_ne_nil m]
  have hall : (natDecimalDigits m).all isDigitByte = true := by
    rw [List.all_eq_true]
    intro b hbmem
    have := mem_natDecimalDigits hbmem
    simp [isDigitByte]
    omega
  rw [parseI64Core, if_neg hne, if_pos hall]
  simp only [digitsVal_natDecimalDigits]
  rw [if_pos ⟨h1, h2⟩]

theorem parseI64_natDecimalDigits (m : Nat) (h : (m : Int) ≤ i64Max) :
    parseI64 (natDecimalDigits m) = some (m : Int) := by
  obtain ⟨d, ds, hds⟩ : ∃ d ds, natDecimalDigits m = d :: ds := by
    cases hnd : natDecimalDigits m with
    | nil => exact absurd hnd (natDecimalDigits_ne_nil m)
    | cons d ds => exact ⟨d, ds, rfl⟩
  have hd48 : 48 ≤ d ∧ d ≤ 57 :=
    mem_natDecimalDigits (by rw [hds]; exact List.mem_cons_self d ds)
  rw [hds, parseI64, if_neg (by omega : ¬ d = 43), if_neg (by omega : ¬ d = 45), ← hds]
  have hnn : (0 : Int) ≤ (m : Int) := Int.natCast_nonneg m
  have := parseI64Core_natDecimalDigits 1 m
    (by simp only [one_mul]; simp only [i64Min]; omega) (by simpa using h)
  simpa using this

theorem parseI64_intToBytes (n : Int) (h1 : i64Min ≤ n) (h2 : n ≤ i64Max) :
    parseI64 (intToBytes n) = some n := by
  cases n with
  | ofNat m =>
    rw [intToBytes]
    exact parseI64_natDecimalDigits m (by exact_mod_cast h2)
  | negSucc m =>
    rw [intToBytes, parseI64, if_neg (by norm_num), if_pos rfl]
    have heq : (-1 : Int) * (m + 1 : Nat) = Int.negSucc m := by
      simp [Int.negSucc_eq]
    have := parseI64Core_natDecimalDigits (-1) (m + 1)
      (by rw [heq]; exact h1) (by rw [heq]; exact h2)
    rw [this, heq]

theorem containsCrlf_eq_false_of (l : List Nat) (h : ∀ b ∈ l, b ≠ 13) :
    containsCrlf l = false := by
  induction l with
  | nil => rfl
  | cons a l ih =>
    cases l with
    | nil => rfl
    | cons b l' =>
      have ha : a ≠ 13 := h a (List.mem_cons_self a _)
      rw [containsCrlf]
      simp only [CR, ha, decide_eq_true_eq, decide_eq_false_iff_not, Bool.false_and,
        Bool.false_or, decide_eq_false ha, Bool.or_eq_false_iff]
      exact ⟨rfl, ih (fun x hx => h x (List.mem_cons_of_mem a hx))⟩

theorem containsCrlf_natDecimalDigits (m : Nat) :
    containsCrlf (natDecimalDigits m) = false := by
  apply containsCrlf_eq_false_of
  intro b hb
  have := mem_natDecimalDigits hb
  omega

theorem containsCrlf_intToBytes (n : Int) : containsCrlf (intToBytes n) = false := by
  apply containsCrlf_eq_false_of
  intro b hb
  cases n with
  | ofNat m => have := mem_natDecimalDigits (by simpa [intToBytes] using hb); omega
  | negSucc m =>
    simp only [intToBytes, List.mem_cons] at hb
    rcases hb with h45 | hmem
    · omega
    · have := mem_natDecimalDigits hmem; omega

theorem untilCrlf_append (pre rest : List Nat) (h : containsCrlf pre = false) :
    untilCrlf (pre ++ 13 :: 10 :: rest) = some (pre, rest) := by
  induction pre with
  | nil => simp [untilCrlf, CR, LF]
  | cons a pre' ih =>
    cases pre' with
    | nil =>
      simp only [List.nil_append, List.cons_append, untilCrlf, CR, LF]
      norm_num
    | cons b pre'' =>
      have hcc : containsCrlf (b :: pre'') = false ∧ ¬ (a = 13 ∧ b = 10) := by
        rw [containsCrlf] at h
        simp only [CR, LF, Bool.or_eq_false_iff, Bool.and_eq_false_iff] at h
        constructor
        · exact h.2
        · rintro ⟨rfl, rfl⟩
          rcases h.1 with h1 | h1 <;> simp at h1
      simp only [List.cons_append, untilCrlf, CR, LF]
      rw [if_neg (by
        simp only [Bool.and_eq_true, decide_eq_true_eq]
        exact hcc.2)]
      show Option.map (fun p => (a :: p.1, p.2))
        (untilCrlf ((b :: pre'') ++ 13 :: 10 :: rest)) = some (a :: b :: pre'', rest)
      rw [ih hcc.1]
      rfl

theorem takeN_append (s t : List Nat) : takeN s.length (s ++ t) = some (s, t) := by
  rw [takeN, if_neg (by simp)]
  simp

example : parseI64 (intToBytes (-12345)) = some (-12345) := by
  exact parseI64_intToBytes (-12345) (by norm_num [i64Min]) (by norm_num [i64Max])

theorem lookupStore_insertStore_self (k : Value) (e : Entry) (s : Store) :
    lookupStore k (insertStore k e s) = some e := by
  induction s with
  | nil => simp [insertStore, lookupStore]
  | cons kv rest ih =>
    obtain ⟨k', e'⟩ := kv
    by_cases h : k' = k
    · simp [insertStore, lookupStore, h]
    · simp [insertStore, lookupStore, h, ih]

/-- Unique-keys invariant of a `BTreeMap` modelled as an association list. -/
def storeKeysNodup (s : Store) : Prop := (s.map Prod.fst).Nodup

theorem lookupStore_eq_none_of_not_mem (k : Value) (s : Store)
    (h : k ∉ s.map Prod.fst) : lookupStore k s = none := by
  induction s with
  | nil => rfl
  | cons kv rest ih =>
    obtain ⟨k', e'⟩ := kv
    simp only [List.map_cons, List.mem_cons] at h
    push_neg at h
    have hk : ¬ k' = k := fun hh => h.1 hh.symm
    rw [lookupStore, if_neg hk]
    exact ih h.2

theorem mem_of_lookupStore {k : Value} {e : Entry} {s : Store}
    (h : lookupStore k s = some e) : (k, e) ∈ s := by
  induction s with
  | nil => simp [lookupStore] at h
  | cons kv rest ih =>
    obtain ⟨k', e'⟩ := kv
    by_cases hk : k' = k
    · subst hk
      rw [lookupStore, if_pos rfl] at h
      injection h with h
      subst h
      exact List.mem_cons_self _ _
    · rw [lookupStore, if_neg hk] at h
      exact List.mem_cons_of_mem _ (ih h)

theorem lookupStore_of_mem_nodup {k : Value} {e : Entry} {s : Store}
    (hs : storeKeysNodup s) (h : (k, e) ∈ s) : lookupStore k s = some e := by
  induction s with
  | nil => simp at h
  | cons kv rest ih =>
    obtain ⟨k', e'⟩ := kv
    rw [storeKeysNodup, List.map_cons, List.nodup_cons] at hs
    rcases List.mem_cons.mp h with heq | hmem
    · obtain ⟨rfl, rfl⟩ := Prod.mk.injEq .. ▸ heq
      simp [lookupStore]
    · have hk : k' ≠ k := by
        rintro rfl
        exact hs.1 (List.mem_map.mpr ⟨(k', e), hmem, rfl⟩)
      rw [lookupStore, if_neg hk]
      exact ih hs.2 hmem

theorem lookupStore_removeStore_self (k : Value) (s : Store)
    (hs : storeKeysNodup s) : lookupStore k (removeStore k s) = none := by
  induction s with
  | nil => rfl
  | cons kv rest ih =>
    obtain ⟨k', e'⟩ := kv
    rw [storeKeysNodup, List.map_cons, List.nodup_cons] at hs
    by_cases hk : k' = k
    · subst hk
      rw [removeStore, if_pos rfl]
      exact lookupStore_eq_none_of_not_mem _ _ hs.1
    · rw [removeStore, if_neg hk, lookupStore, if_neg hk]
      exact ih hs.2

theorem lookupStore_removeStore_other (k q : Value) (s : Store) (h : q ≠ k) :
    lookupStore k (removeStore q s) = lookupStore k s := by
  induction s with
  | nil => rfl
  | cons kv rest ih =>
    obtain ⟨k', e'⟩ := kv
    by_cases hq : k' = q
    · subst hq
      rw [removeStore, if_pos rfl, lookupStore, if_neg h]
    · rw [removeStore, if_neg hq]
      by_cases hk : k' = k
      · simp [lookupStore, hk]
      · rw [lookupStore, if_neg hk, lookupStore, if_neg hk, ih]

theorem removeStore_keys_sublist (k : Value) (s : Store) :
    ((removeStore k s).map Prod.fst).Sublist (s.map Prod.fst) := by
  induction s with
  | nil => simp [removeStore]
  | cons kv rest ih =>
    obtain ⟨k', e'⟩ := kv
    by_cases hk : k' = k
    · rw [removeStore, if_pos hk]
      simp only [List.map_cons]
      exact (List.sublist_cons_self _ _)
    · rw [removeStore, if_neg hk]
      simp only [List.map_cons]
      exact ih.cons₂ _

theorem storeKeysNodup_removeStore (k : Value) (s : Store)
    (hs : storeKeysNodup s) : storeKeysNodup (removeStore k s) :=
  List.Nodup.sublist (removeStore_keys_sublist k s) hs

theorem lookupStore_foldl_remove (ks : List Value) :
    ∀ s : Store, storeKeysNodup s → ∀ k : Value,
      lookupStore k (ks.foldl (fun acc q => removeStore q acc) s) =
        if k ∈ ks then none else lookupStore k s := by
  induction ks with
  | nil => intro s _ k; simp
  | cons q ks ih =>
    intro s hs k
    rw [List.foldl_cons, ih (removeStore q s) (storeKeysNodup_removeStore q s hs) k]
    by_cases hmem : k ∈ ks
    · simp [hmem]
    · rw [if_neg hmem]
      by_cases hkq : k = q
      · subst hkq
        rw [if_pos (List.mem_cons_self _ _)]
        exact lookupStore_removeStore_self k s hs
      · rw [if_neg (by simp [hkq, hmem])]
        exact lookupStore_removeStore_other k q s (fun hh => hkq hh.symm)

theorem mem_expiredKeys_iff {s : Store} (hs : storeKeysNodup s) (now : Nat) (k : Value) :
    k ∈ expiredKeys s now ↔ ∃ e, lookupStore k s = some e ∧ e.is_expired now = true := by
  constructor
  · intro hmem
    rw [expiredKeys] at hmem
    obtain ⟨⟨k', e⟩, hmem', rfl⟩ := List.mem_map.mp hmem
    have hf := List.mem_filter.mp hmem'
    exact ⟨e, lookupStore_of_mem_nodup hs hf.1, by simpa using hf.2⟩
  · rintro ⟨e, hl, hexp⟩
    rw [expiredKeys]
    exact List.mem_map.mpr ⟨(k, e),
      List.mem_filter.mpr ⟨mem_of_lookupStore hl, by simpa using hexp⟩, rfl⟩

theorem lookupStore_prune_expired (s : Store) (now : Nat) (k : Value)
    (hs : storeKeysNodup s) :
    lookupStore k (prune_expired s now) =
      match lookupStore k s with
      | some e => if e.is_expired now then none else some e
      | none => none := by
  rw [prune_expired, lookupStore_foldl_remove (expiredKeys s now) s hs k]
  cases hl : lookupStore k s with
  | none =>
    have hnot : k ∉ expiredKeys s now := by
      intro hmem
      obtain ⟨e, he, _⟩ := (mem_expiredKeys_iff hs now k).mp hmem
      simp [hl] at he
    rw [if_neg hnot]
  | some e =>
    by_cases hexp : e.is_expired now = true
    · rw [if_pos ((mem_expiredKeys_iff hs now k).mpr ⟨e, hl, hexp⟩)]
      simp [hexp]
    · rw [if_neg (fun hmem => by
        obtain ⟨e', he', hexp'⟩ := (mem_expiredKeys_iff hs now k).mp hmem
        rw [hl] at he'
        obtain rfl : e = e' := by simpa using he'
        exact hexp hexp')]
      simp [hl, hexp]

theorem deserializeAny_serializeI64 (orig : Nat) (n : Int) (rest : List Nat)
    (h1 : i64Min ≤ n) (h2 : n ≤ i64Max) :
    deserializeAny orig (serializeI64 n ++ rest) = .ok (.int n, rest) := by
  have hshape : serializeI64 n ++ rest = 58 :: (intToBytes n ++ 13 :: 10 :: rest) := by
    simp [serializeI64, CR, LF]
  rw [hshape, deserializeAny]
  norm_num
  simp only [untilCrlf_append _ _ (containsCrlf_intToBytes n),
    parseI64_intToBytes n h1 h2]

theorem deserializeAny_serializeBool (orig : Nat) (b : Bool) (rest : List Nat) :
    deserializeAny orig (serializeBool b ++ rest) = .ok (.bool b, rest) := by
  cases b <;> simp [serializeBool, deserializeAny, untilCrlf, CR, LF]

theorem deserializeAny_simpleText (orig : Nat) (s rest : List Nat)
    (h : containsCrlf s = false) :
    deserializeAny orig ((43 :: s ++ [CR, LF]) ++ rest) = .ok (.bytes s, rest) := by
  have hshape : (43 :: s ++ [CR, LF]) ++ rest = 43 :: (s ++ 13 :: 10 :: rest) := by
    simp [CR, LF]
  rw [hshape, deserializeAny, if_pos rfl, untilCrlf_append _ _ h]

theorem deserializeAny_serializeBulk (orig : Nat) (s rest : List Nat)
    (hlen : (s.length : Int) ≤ i64Max) :
    deserializeAny orig (serializeBulk s ++ rest) = .ok (.bytes s, rest) := by
  have hshape : serializeBulk s ++ rest =
      36 :: (natDecimalDigits s.length ++ 13 :: 10 :: (s ++ 13 :: 10 :: rest)) := by
    simp [serializeBulk, CR, LF]
  rw [hshape, deserializeAny]
  norm_num
  simp only [untilCrlf_append _ _ (containsCrlf_natDecimalDigits s.length),
    parseI64_natDecimalDigits s.length hlen]
  rw [if_neg (by omega : ¬ ((s.length : Int) < 0))]
  simp only [Int.toNat_natCast, takeN_append]

/-- The values of the currently supported fragment of the dynamic decode
path: integers (in the `i64` range carried by the Rust type), booleans, and
present text (valid UTF-8 and bulk-encodable length, the invariants of a
Rust `String`). Absent optionals, sequences, maps and `Null` are outside the
fragment: their frames are not handled by `deserialize_any` (or, for `Null`,
by the serializer). -/
def SupportedValue : Value → Prop
  | .Int n => i64Min ≤ n ∧ n ≤ i64Max
  | .Bool _ => True
  | .String (some s) => utf8Valid s = true ∧ (s.length : Int) ≤ i64Max
  | _ => False

/-- C1 (amended): round-trip holds on the currently supported fragment of
the dynamic value path. For every supported value v (integer, boolean, or
present text), decoding the bytes produced by encoding v yields exactly v;
consequently, for every frame f that is the encoding of a supported value,
encoding the value decoded from f reproduces exactly the bytes of f. -/
theorem c1_roundtrip_supported (v : Value) (f : List Nat)
    (hv : SupportedValue v) (hf : serializeValue v = .ok f) :
    fromBytesValue f = .ok v ∧
    ∀ w, fromBytesValue f = .ok w → serializeValue w = .ok f := by
  have hdec : fromBytesValue f = .ok v := by
    cases v with
    | Int n =>
      obtain ⟨h1, h2⟩ := hv
      rw [serializeValue] at hf
      injection hf with hf
      subst hf
      have hh := deserializeAny_serializeI64 ((serializeI64 n).length) n [] h1 h2
      rw [List.append_nil] at hh
      rw [fromBytesValue, hh]
      rfl
    | Bool b =>
      rw [serializeValue] at hf
      injection hf with hf
      subst hf
      have hh := deserializeAny_serializeBool ((serializeBool b).length) b []
      rw [List.append_nil] at hh
      rw [fromBytesValue, hh]
      rfl
    | String s =>
      cases s with
      | none => exact absurd hv (by simp [SupportedValue])
      | some s =>
        obtain ⟨hutf, hlen⟩ := hv
        rw [serializeValue] at hf
        injection hf with hf
        subst hf
        by_cases hc : containsCrlf s
        · rw [serializeStr, if_pos hc]
          have hh := deserializeAny_serializeBulk ((serializeBulk s).length) s [] hlen
          rw [List.append_nil] at hh
          rw [fromBytesValue, hh]
          simp [contentToValue, hutf]
        · rw [serializeStr, if_neg hc]
          have hh := deserializeAny_simpleText ((43 :: s ++ [CR, LF]).length) s []
            (by simpa using hc)
          rw [List.append_nil] at hh
          rw [fromBytesValue, hh]
          simp [contentToValue, hutf]
    | Array a => cases a <;> simp [SupportedValue] at hv
    | Map m => simp [SupportedValue] at hv
    | Null => simp [SupportedValue] at hv
  refine ⟨hdec, fun w hw => ?_⟩
  rw [hdec] at hw
  injection hw with hw
  subst hw
  exact hf

/-- C1 witness: the round-trip theorem applied at the present text value
abc and its frame. -/
theorem c1_witness :
    fromBytesValue (asciiBytes "+abc" ++ [CR, LF]) =
      .ok (Value.String (some (asciiBytes "abc"))) := by
  have h := c1_roundtrip_supported (Value.String (some (asciiBytes "abc")))
    (asciiBytes "+abc" ++ [CR, LF])
    (by exact ⟨rfl, by decide⟩) (by rfl)
  exact h.1

/-- C1 counterexample: the claim as stated fails in both directions. The
absent optional text (a supported value per the spec's value model) encodes
to the frame of `$-1` CRLF, but decoding that frame fails with a
negative-length error rather than yielding the value back; and the
well-formed, currently-supported bulk frame `$3` CRLF `abc` CRLF decodes to
the present text abc, which re-encodes as the simple-text frame `+abc` CRLF,
not the original bytes. -/
theorem c1_counterexample :
    (serializeValue (Value.String none) = .ok (asciiBytes "$-1" ++ [CR, LF]) ∧
      fromBytesValue (asciiBytes "$-1" ++ [CR, LF]) = .error (.negativeLength 1)) ∧
    (fromBytesValue (asciiBytes "$3" ++ [CR, LF] ++ asciiBytes "abc" ++ [CR, LF]) =
        .ok (Value.String (some (asciiBytes "abc"))) ∧
      serializeValue (Value.String (some (asciiBytes "abc"))) =
        .ok (asciiBytes "+abc" ++ [CR, LF]) ∧
      asciiBytes "+abc" ++ [CR, LF] ≠
        asciiBytes "$3" ++ [CR, LF] ++ asciiBytes "abc" ++ [CR, LF]) := by
  exact ⟨⟨rfl, rfl⟩, rfl, rfl, by decide⟩

/-- C2: encoding an absent optional text or absent optional sequence
produces exactly the bytes `$-1` CRLF, as claimed; but decoding the frame
`$-1` CRLF as an optional shape does not yield the absent value: the
deserializer's `deserialize_option` is `todo!()` and panics (while the
repository's own tests, e.g. `option_null_string` in src/deserializer.rs,
assert that this decode yields `None`). The dynamic-value path likewise
fails on this frame, with a negative-length error at offset 1. -/
theorem c2_absent_optional :
    serializeValue (Value.String none) = .ok serializeNone ∧
    serializeValue (Value.Array none) = .ok serializeNone ∧
    serializeNone = asciiBytes "$-1" ++ [CR, LF] ∧
    deserializeOption (asciiBytes "$-1" ++ [CR, LF]).length
      (asciiBytes "$-1" ++ [CR, LF]) = .error .panicTodo ∧
    fromBytesValue (asciiBytes "$-1" ++ [CR, LF]) = .error (.negativeLength 1) :=
  ⟨rfl, rfl, rfl, rfl, rfl⟩

/-- C5 counterexample: decoding the keyed-map frame `%1` CRLF `:1` CRLF
(declared pair count one, honoured by the consumer; input ends after the key
with no matching value) returns the generic end-of-input error, not the
distinct missing-value error. -/
theorem c5_counterexample :
    fromBytesMapI64 (asciiBytes "%1" ++ [CR, LF] ++ asciiBytes ":1" ++ [CR, LF]) =
      .error .unexpectedEof := rfl

/-- C5 (amended): running out of input mid-pair while the declared pair
count is honoured yields the generic end-of-input error; the distinct
missing-value error (carrying the current offset) arises only when a map
consumer requests a value after the declared pair count is exhausted, a
request the standard alternating key/value visitor never makes. -/
theorem c5_missing_value_unreachable :
    fromBytesMapI64 (asciiBytes "%1" ++ [CR, LF] ++ asciiBytes ":1" ++ [CR, LF]) =
      .error .unexpectedEof ∧
    ∀ (orig : Nat) (input : List Nat),
      nextValueSeedI64 orig 0 input = .error (.missingValue (orig - input.length)) :=
  ⟨rfl, fun _ _ => rfl⟩

/-- C6: a top-level decode succeeds only when the whole buffer is consumed
by exactly one value; unconsumed trailing bytes fail the decode with a
trailing-characters error at the offset of the first unconsumed byte; in
particular the 5-byte buffer `:1` CRLF `X` decoded as a single integer fails
with trailing-characters at offset 4. -/
theorem c6_trailing_characters :
    (∀ (s : List Nat) (v : Int), fromBytesI64 s = .ok v →
      deserializeAnyI64 s.length s = .ok (v, [])) ∧
    (∀ (s rest : List Nat) (v : Int),
      deserializeAnyI64 s.length s = .ok (v, rest) → rest ≠ [] →
      fromBytesI64 s = .error (.trailingCharacters (s.length - rest.length))) ∧
    fromBytesI64 (asciiBytes ":1" ++ [CR, LF] ++ [88]) =
      .error (.trailingCharacters 4) := by
  refine ⟨fun s v h => ?_, fun s rest v h hne => ?_, rfl⟩
  · rw [fromBytesI64] at h
    cases hd : deserializeAnyI64 s.length s with
    | error e => rw [hd] at h; simp at h
    | ok p =>
      obtain ⟨w, rest⟩ := p
      rw [hd] at h
      by_cases hr : rest = []
      · subst hr
        simp only [List.isEmpty_nil, if_true] at h
        injection h with h
        subst h
        rfl
      · simp [hr, List.isEmpty_iff] at h
  · rw [fromBytesI64, h]
    simp [List.isEmpty_iff, hne]

/-- C6 witness: the full-consumption direction applied to the frame `:1`
CRLF, and the trailing-bytes direction applied to `:1` CRLF `X`. -/
theorem c6_witness :
    deserializeAnyI64 (asciiBytes ":1" ++ [CR, LF]).length
      (asciiBytes ":1" ++ [CR, LF]) = .ok (1, []) ∧
    fromBytesI64 (asciiBytes ":1" ++ [CR, LF] ++ [88]) =
      .error (.trailingCharacters 4) := by
  constructor
  · exact c6_trailing_characters.1 (asciiBytes ":1" ++ [CR, LF]) 1 rfl
  · exact c6_trailing_characters.2.1 (asciiBytes ":1" ++ [CR, LF] ++ [88]) [88] 1
      rfl (by decide)

/-- C3 counterexample: storing k with PX 0 at time 5 and reading k back at
the same millisecond (zero elapsed time) returns the stored value, not Null,
because `is_expired` compares strictly (now > expiry). -/
theorem c3_counterexample :
    appGet (appSet [] [Value.strV (asciiBytes "k"), Value.strV (asciiBytes "v"),
        Value.strV (asciiBytes "PX"), Value.strV (asciiBytes "0")] 5).2
      [Value.strV (asciiBytes "k")] 5 = .ok (Value.strV (asciiBytes "v")) ∧
    Value.strV (asciiBytes "v") ≠ Value.Null := by
  exact ⟨rfl, by decide⟩

/-- C3 (amended): a `set` of k to v with no PX modifier followed immediately
by a `get` of k returns v (and the set replies OK); after a `set` of k to v
with PX 0, a `get` of k at any strictly later millisecond returns Null,
while a `get` at zero elapsed milliseconds still returns v, since expiry is
the strict comparison now > expiry. -/
theorem c3_set_get (store : Store) (k v : Value) (now t : Nat) :
    ((appSet store [k, v] now).1 = .ok (Value.String (some (asciiBytes "OK"))) ∧
      appGet (appSet store [k, v] now).2 [k] now = .ok v) ∧
    (now < t →
      appGet (appSet store [k, v, Value.strV (asciiBytes "PX"),
        Value.strV (asciiBytes "0")] now).2 [k] t = .ok Value.Null) ∧
    appGet (appSet store [k, v, Value.strV (asciiBytes "PX"),
      Value.strV (asciiBytes "0")] now).2 [k] now = .ok v := by
  have hargs : SetArgs.from_args [k, v] = .ok { key := k, val := v, expiry := none } := rfl
  have hargs0 : SetArgs.from_args [k, v, Value.strV (asciiBytes "PX"),
      Value.strV (asciiBytes "0")] = .ok { key := k, val := v, expiry := some 0 } := rfl
  refine ⟨⟨?_, ?_⟩, fun ht => ?_, ?_⟩
  · simp [appSet, hargs]
  · simp [appSet, hargs, appGet, lookupStore_insertStore_self, Entry.newE, Entry.is_expired]
  · simp [appSet, hargs0, appGet, lookupStore_insertStore_self, Entry.newE,
      Entry.expires_in, Entry.is_expired, ht]
  · simp [appSet, hargs0, appGet, lookupStore_insertStore_self, Entry.newE,
      Entry.expires_in, Entry.is_expired]

/-- C3 witness: the amended theorem applied at a concrete store, key, value
and clock (set at 5, strictly-later get at 6). -/
theorem c3_witness :
    (appSet [] [Value.strV (asciiBytes "k"), Value.strV (asciiBytes "v")] 5).1 =
      .ok (Value.String (some (asciiBytes "OK"))) ∧
    appGet (appSet [] [Value.strV (asciiBytes "k"), Value.strV (asciiBytes "v")] 5).2
      [Value.strV (asciiBytes "k")] 5 = .ok (Value.strV (asciiBytes "v")) ∧
    appGet (appSet [] [Value.strV (asciiBytes "k"), Value.strV (asciiBytes "v"),
        Value.strV (asciiBytes "PX"), Value.strV (asciiBytes "0")] 5).2
      [Value.strV (asciiBytes "k")] 6 = .ok Value.Null := by
  have h := c3_set_get [] (Value.strV (asciiBytes "k")) (Value.strV (asciiBytes "v")) 5 6
  exact ⟨h.1.1, h.1.2, h.2.1 (by omega)⟩

/-- C9: a `set` whose PX milliseconds argument parses as a negative integer
succeeds (replying OK) and stores the entry with no expiry at all — the
`i64`-to-`u128` conversion fails for negative values and the expiry is
silently discarded — so the entry never expires and later gets return the
value. -/
theorem c9_negative_px (store : Store) (k v : Value) (ms : List Nat) (n : Int)
    (now : Nat) (hp : parseI64 ms = some n) (hn : n < 0) :
    appSet store [k, v, Value.strV (asciiBytes "PX"), Value.strV ms] now =
      (.ok (Value.String (some (asciiBytes "OK"))),
        insertStore k (Entry.newE v) store) ∧
    (Entry.newE v).expiry = none ∧
    (∀ t, (Entry.newE v).is_expired t = false) ∧
    (∀ t, appGet (insertStore k (Entry.newE v) store) [k] t = .ok v) := by
  have hpx : isPxToken (Value.String (some (asciiBytes "PX"))) = true := rfl
  have hargs : SetArgs.from_args [k, v, Value.strV (asciiBytes "PX"), Value.strV ms] =
      .ok { key := k, val := v, expiry := some n } := by
    simp [SetArgs.from_args, pxLoop, hpx, Value.strV, Value.get_str, hp]
  refine ⟨?_, rfl, fun t => rfl, fun t => ?_⟩
  · have h0 : ¬ (0 : Int) ≤ n := by omega
    simp [appSet, hargs, h0, Entry.newE]
  · simp [appGet, lookupStore_insertStore_self, Entry.newE, Entry.is_expired]

/-- C9 witness: the theorem applied with the concrete modifier PX -5. -/
theorem c9_witness :
    appSet [] [Value.strV (asciiBytes "k"), Value.strV (asciiBytes "v"),
      Value.strV (asciiBytes "PX"), Value.strV (asciiBytes "-5")] 0 =
      (.ok (Value.String (some (asciiBytes "OK"))),
        insertStore (Value.strV (asciiBytes "k"))
          (Entry.newE (Value.strV (asciiBytes "v"))) []) ∧
    ∀ t, (Entry.newE (Value.strV (asciiBytes "v"))).is_expired t = false := by
  have h := c9_negative_px [] (Value.strV (asciiBytes "k"))
    (Value.strV (asciiBytes "v")) (asciiBytes "-5") (-5) 0 (by decide) (by decide)
  exact ⟨h.1, h.2.2.1⟩

/-- C10: every successful `set`, with or without a PX modifier, replies the
simple text OK, whose wire encoding is exactly `+OK` CRLF; at the dispatch
level a `set` request with parseable arguments produces exactly the response
bytes `+OK` CRLF. -/
theorem c10_set_replies_ok :
    (∀ (store : Store) (argv : List Value) (now : Nat) (r : Value) (s' : Store),
      appSet store argv now = (.ok r, s') →
      r = Value.String (some (asciiBytes "OK")) ∧
      serializeValue r = .ok (asciiBytes "+OK" ++ [CR, LF])) ∧
    (∀ (app : App) (now : Nat) (argv : List Value) (a : SetArgs),
      SetArgs.from_args argv = .ok a →
      dispatch_inner app now (.Array (some (Value.strV (asciiBytes "set") :: argv))) =
        (.ok (asciiBytes "+OK" ++ [CR, LF]),
          { app with store := (appSet app.store argv now).2 })) := by
  have hfirst : ∀ (store : Store) (argv : List Value) (now : Nat) (r : Value) (s' : Store),
      appSet store argv now = (.ok r, s') →
      r = Value.String (some (asciiBytes "OK")) ∧
      serializeValue r = .ok (asciiBytes "+OK" ++ [CR, LF]) := by
    intro store argv now r s' h
    cases hargs : SetArgs.from_args argv with
    | error e => rw [appSet, hargs] at h; simp at h
    | ok a =>
      rw [appSet, hargs] at h
      simp only [Prod.mk.injEq, Except.ok.injEq] at h
      refine ⟨h.1.symm, ?_⟩
      rw [← h.1]
      rfl
  refine ⟨hfirst, fun app now argv a hargs => ?_⟩
  simp only [dispatch_inner, Value.strV]
  rw [show asciiLower (asciiBytes "set") = asciiBytes "set" from rfl,
    if_neg (by decide), if_neg (by decide), if_pos rfl]
  cases hset : appSet app.store argv now with
  | mk r store' =>
    cases hr : r with
    | error e => rw [appSet, hargs] at hset; simp [hr] at hset
    | ok w =>
      obtain ⟨hw, hser⟩ := hfirst app.store argv now w store' (hr ▸ hset)
      subst hw
      have hbytes : runToBytes (.ok (Value.String (some (asciiBytes "OK")))) =
          .ok (asciiBytes "+OK" ++ [CR, LF]) := rfl
      simp [hbytes]

/-- C10 witness: the appSet-level and dispatch-level statements applied to a
concrete plain `set` request. -/
theorem c10_witness :
    (Value.String (some (asciiBytes "k")) = Value.String (some (asciiBytes "k"))) ∧
    serializeValue (Value.String (some (asciiBytes "OK"))) =
      .ok (asciiBytes "+OK" ++ [CR, LF]) ∧
    dispatch_inner { store := [], config := [] } 0
      (.Array (some [Value.strV (asciiBytes "set"), Value.strV (asciiBytes "k"),
        Value.strV (asciiBytes "v")])) =
      (.ok (asciiBytes "+OK" ++ [CR, LF]),
        { store := (appSet [] [Value.strV (asciiBytes "k"),
            Value.strV (asciiBytes "v")] 0).2, config := [] }) := by
  refine ⟨rfl, ?_, ?_⟩
  · exact (c10_set_replies_ok.1 [] [Value.strV (asciiBytes "k"),
      Value.strV (asciiBytes "v")] 0 (Value.String (some (asciiBytes "OK"))) _ rfl).2
  · exact c10_set_replies_ok.2 { store := [], config := [] } 0
      [Value.strV (asciiBytes "k"), Value.strV (asciiBytes "v")]
      { key := Value.strV (asciiBytes "k"), val := Value.strV (asciiBytes "v"),
        expiry := none } rfl

/-- C7: a `get` of a key whose entry is expired returns Null, exactly as a
`get` of an absent key does; `get` never mutates the application state (the
expired entry survives the call); and only the explicit prune operation
removes entries, deleting precisely the currently-expired ones. -/
theorem c7_get_expired (store : Store) (k : Value) (e : Entry) (now : Nat)
    (hnd : storeKeysNodup store) (hl : lookupStore k store = some e)
    (hexp : e.is_expired now = true) :
    appGet store [k] now = .ok Value.Null ∧
    appGet (removeStore k store) [k] now = .ok Value.Null ∧
    (∀ (app : App) (args : List Value),
      (dispatch_inner app now (.Array (some
        (Value.strV (asciiBytes "get") :: args)))).2 = app) ∧
    (∀ q, lookupStore q (prune_expired store now) =
      match lookupStore q store with
      | some e' => if e'.is_expired now then none else some e'
      | none => none) := by
  refine ⟨?_, ?_, fun app args => rfl,
    fun q => lookupStore_prune_expired store now q hnd⟩
  · simp [appGet, hl, hexp]
  · have hnone := lookupStore_removeStore_self k store hnd
    simp [appGet, hnone, Entry.newE, Entry.is_expired]

/-- C7 witness: the theorem applied to a one-entry store whose entry expired
at time 3, read at time 7. -/
theorem c7_witness :
    appGet [(Value.strV (asciiBytes "k"),
        { value := Value.strV (asciiBytes "v"), expiry := some 3 })]
      [Value.strV (asciiBytes "k")] 7 = .ok Value.Null := by
  exact (c7_get_expired [(Value.strV (asciiBytes "k"),
    { value := Value.strV (asciiBytes "v"), expiry := some 3 })]
    (Value.strV (asciiBytes "k"))
    { value := Value.strV (asciiBytes "v"), expiry := some 3 } 7
    (by simp [storeKeysNodup]) rfl (by decide)).1

theorem supportedVerb_ne_facts :
    (asciiBytes "echo" ≠ asciiBytes "ping") ∧ (asciiBytes "set" ≠ asciiBytes "ping") ∧
    (asciiBytes "set" ≠ asciiBytes "echo") ∧ (asciiBytes "get" ≠ asciiBytes "ping") ∧
    (asciiBytes "get" ≠ asciiBytes "echo") ∧ (asciiBytes "get" ≠ asciiBytes "set") ∧
    (asciiBytes "config" ≠ asciiBytes "ping") ∧ (asciiBytes "config" ≠ asciiBytes "echo") ∧
    (asciiBytes "config" ≠ asciiBytes "set") ∧ (asciiBytes "config" ≠ asciiBytes "get") := by
  decide

/-- C8: dispatch is verb-case-insensitive on the supported command set: two
verb texts with the same lowercasing that name a supported command invoke
the same handler with identical behaviour (same response and same resulting
state); and a verb outside the supported set produces the unknown-command
error line containing the literal verb text exactly as supplied. -/
theorem c8_dispatch_case_insensitive :
    (∀ (app : App) (now : Nat) (c1 c2 : List Nat) (args : List Value),
      asciiLower c1 = asciiLower c2 →
      asciiLower c1 ∈ [asciiBytes "ping", asciiBytes "echo", asciiBytes "set",
        asciiBytes "get", asciiBytes "config"] →
      dispatch_inner app now (.Array (some (Value.String (some c1) :: args))) =
        dispatch_inner app now (.Array (some (Value.String (some c2) :: args)))) ∧
    (∀ (app : App) (now : Nat) (c : List Nat) (args : List Value),
      asciiLower c ∉ [asciiBytes "ping", asciiBytes "echo", asciiBytes "set",
        asciiBytes "get", asciiBytes "config"] →
      dispatch_command app now (.Array (some (Value.String (some c) :: args))) =
        (some (asciiBytes "-UNKNOWN " ++ c ++ [CR, LF]), app)) := by
  obtain ⟨f1, f2, f3, f4, f5, f6, f7, f8, f9, f10⟩ := supportedVerb_ne_facts
  constructor
  · intro app now c1 c2 args heq hmem
    simp only [List.mem_cons, List.not_mem_nil, or_false] at hmem
    rcases hmem with h | h | h | h | h <;>
      (have h2 : asciiLower c2 = asciiLower c1 := heq.symm) <;>
      rw [h] at h2 <;>
      simp only [dispatch_inner] <;>
      rw [h, h2]
    · rw [if_pos rfl, if_pos rfl]
    · rw [if_neg f1, if_neg f1, if_pos rfl, if_pos rfl]
    · rw [if_neg f2, if_neg f2, if_neg f3, if_neg f3, if_pos rfl, if_pos rfl]
    · rw [if_neg f4, if_neg f4, if_neg f5, if_neg f5, if_neg f6, if_neg f6,
        if_pos rfl, if_pos rfl]
    · rw [if_neg f7, if_neg f7, if_neg f8, if_neg f8, if_neg f9, if_neg f9,
        if_neg f10, if_neg f10, if_pos rfl, if_pos rfl]
  · intro app now c args hmem
    simp only [List.mem_cons, List.not_mem_nil, or_false] at hmem
    push_neg at hmem
    obtain ⟨h1, h2, h3, h4, h5⟩ := hmem
    simp only [dispatch_command, dispatch_inner]
    rw [if_neg h1, if_neg h2, if_neg h3, if_neg h4, if_neg h5]
    simp [CmdError.displayBytes, List.append_assoc]

/-- C8 witness: the case-insensitivity statement applied to the verbs SET
and set, and the unknown-verb statement applied to the verb FOO. -/
theorem c8_witness :
    dispatch_inner { store := [], config := [] } 0
      (.Array (some [Value.String (some (asciiBytes "SET"))])) =
    dispatch_inner { store := [], config := [] } 0
      (.Array (some [Value.String (some (asciiBytes "set"))])) ∧
    dispatch_command { store := [], config := [] } 0
      (.Array (some [Value.String (some (asciiBytes "FOO"))])) =
      (some (asciiBytes "-UNKNOWN " ++ asciiBytes "FOO" ++ [CR, LF]),
        { store := [], config := [] }) := by
  constructor
  · exact c8_dispatch_case_insensitive.1 { store := [], config := [] } 0
      (asciiBytes "SET") (asciiBytes "set") [] (by decide) (by decide)
  · exact c8_dispatch_case_insensitive.2 { store := [], config := [] } 0
      (asciiBytes "FOO") [] (by decide)

/-- C4 counterexample: a `set` request missing the key fails with a
`GenericStatic` error, whose category is ERR rather than the claimed
INVALIDREQ; and a `set` request with a trailing PX token and no following
argument also fails with a `GenericStatic` error, category ERR rather than
the claimed WRONGTYPE. -/
theorem c4_counterexample :
    SetArgs.from_args [] = .error (.genericStatic "set is missing key") ∧
    CmdError.category (.genericStatic "set is missing key") = "ERR" ∧
    ("ERR" : String) ≠ "INVALIDREQ" ∧
    SetArgs.from_args [Value.strV (asciiBytes "k"), Value.strV (asciiBytes "v"),
      Value.strV (asciiBytes "PX")] = .error (.genericStatic "PX expects expiry.") ∧
    CmdError.category (.genericStatic "PX expects expiry.") = "ERR" ∧
    ("ERR" : String) ≠ "WRONGTYPE" := by
  exact ⟨rfl, rfl, by decide, rfl, rfl, by decide⟩

/-- C4 (amended): for the `set` command, a request missing the key or the
value argument fails with a generic error (category ERR); a request with a
PX token and no following argument fails with a generic error (category
ERR); a PX token followed by an argument that is not text parsing as an
integer fails with a type error (category WRONGTYPE). -/
theorem c4_set_errors :
    SetArgs.from_args [] = .error (.genericStatic "set is missing key") ∧
    (∀ k, SetArgs.from_args [k] =
      .error (.genericStatic "set is missing value argument")) ∧
    (∀ k v arg, isPxToken arg = true →
      SetArgs.from_args [k, v, arg] = .error (.genericStatic "PX expects expiry.")) ∧
    (∀ k v arg e, isPxToken arg = true →
      (e.get_str = none ∨ ∃ s, e.get_str = some s ∧ parseI64 s = none) →
      SetArgs.from_args [k, v, arg, e] = .error (.typeError "expiry must be an int")) ∧
    (∀ msg, CmdError.category (.genericStatic msg) = "ERR") ∧
    (∀ msg, CmdError.category (.typeError msg) = "WRONGTYPE") := by
  refine ⟨rfl, fun k => rfl, fun k v arg hpx => ?_, fun k v arg e hpx he => ?_,
    fun msg => rfl, fun msg => rfl⟩
  · simp [SetArgs.from_args, pxLoop, hpx]
  · rcases he with hnone | ⟨s, hs, hp⟩
    · simp [SetArgs.from_args, pxLoop, hpx, hnone]
    · simp [SetArgs.from_args, pxLoop, hpx, hs, hp]

/-- C4 witness: the amended theorem applied to concrete requests with a bare
PX modifier and with a non-integer PX argument. -/
theorem c4_witness :
    SetArgs.from_args [Value.strV (asciiBytes "k"), Value.strV (asciiBytes "v"),
      Value.strV (asciiBytes "PX")] = .error (.genericStatic "PX expects expiry.") ∧
    SetArgs.from_args [Value.strV (asciiBytes "k"), Value.strV (asciiBytes "v"),
      Value.strV (asciiBytes "PX"), Value.strV (asciiBytes "abc")] =
      .error (.typeError "expiry must be an int") := by
  constructor
  · exact c4_set_errors.2.2.1 (Value.strV (asciiBytes "k"))
      (Value.strV (asciiBytes "v")) (Value.strV (asciiBytes "PX")) (by decide)
  · exact c4_set_errors.2.2.2.1 (Value.strV (asciiBytes "k"))
      (Value.strV (asciiBytes "v")) (Value.strV (asciiBytes "PX"))
      (Value.strV (asciiBytes "abc")) (by decide)
      (Or.inr ⟨asciiBytes "abc", rfl, by decide⟩)
